import Mathlib

/-!
Shallow embedding of the `tf` micro test framework (src/tf.go, src/env.go).

Values of Go type `interface\x7b\x7d` are modelled as `Option GoValue`:
`none` is the nil interface value, `some v` an interface holding the
concrete value `v`.  Declared (static) Go types appearing in function
signatures are modelled by `GoType`.  The host test runner is modelled
only through outcomes: a sub-test body either completes, producing the
list of assertion-failure messages raised inside it (empty list means
the sub-test passes), or aborts with a propagated runtime panic.
-/

/-- Declared Go types that occur in the signatures handled by this
development: booleans, the integer widths exercised by the tests,
strings, pointers to a named element type, and the error interface. -/
inductive GoType : Type
  | tBool : GoType
  | tInt : GoType
  | tInt8 : GoType
  | tInt64 : GoType
  | tString : GoType
  | tPtr : String → GoType
  | tError : GoType
deriving DecidableEq, Repr

/-- Concrete (dynamic) Go values: the numeric constructors carry their
dynamic type; `vNilPtr e` is a typed nil pointer with element type `e`;
`vError ty msg` is a non-nil value of a concrete type named `ty` that
implements the error interface, whose `Error()` method returns `msg`. -/
inductive GoValue : Type
  | vBool : Bool → GoValue
  | vInt : Int → GoValue
  | vInt8 : Int → GoValue
  | vInt64 : Int → GoValue
  | vString : String → GoValue
  | vNilPtr : String → GoValue
  | vError : String → String → GoValue
deriving DecidableEq, Repr

/-- Two-complement wrap of an integer to `w` bits, the effect of a Go
conversion between integer types of different widths. -/
def wrapInt (w : Nat) (n : Int) : Int :=
  (n + 2 ^ (w - 1)) % 2 ^ w - 2 ^ (w - 1)

/-- Display name of a declared type, used in panic messages. -/
def GoType.name : GoType → String
  | .tBool => "bool"
  | .tInt => "int"
  | .tInt8 => "int8"
  | .tInt64 => "int64"
  | .tString => "string"
  | .tPtr e => "*" ++ e
  | .tError => "error"

/-- Display name of the dynamic type of a value, used in panic messages. -/
def GoValue.typeName : GoValue → String
  | .vBool _ => "bool"
  | .vInt _ => "int"
  | .vInt8 _ => "int8"
  | .vInt64 _ => "int64"
  | .vString _ => "string"
  | .vNilPtr e => "*" ++ e
  | .vError ty _ => ty

/-- Numeric payload of a value, when its dynamic type is an integer type. -/
def GoValue.asInt : GoValue → Option Int
  | .vInt n => some n
  | .vInt8 n => some n
  | .vInt64 n => some n
  | _ => none

/-- Build the numeric value of a declared integer type from a payload,
wrapping to the width of the target type. -/
def mkNum (t : GoType) (n : Int) : Option GoValue :=
  match t with
  | .tInt => some (.vInt (wrapInt 64 n))
  | .tInt8 => some (.vInt8 (wrapInt 8 n))
  | .tInt64 => some (.vInt64 (wrapInt 64 n))
  | _ => none

/-- Embedding of `reflect.Value.Convert`: convert a concrete value to a
declared type following the Go conversion rules on the modelled domain.
Integer types interconvert with wrapping; a value whose concrete type
implements the error interface converts to the error interface type; a
typed nil pointer converts to its own pointer type.  Anything else
panics in Go; the panic is the `Except.error` case and carries the
message of the reflect panic. -/
def convert (v : GoValue) (t : GoType) : Except String GoValue :=
  let bad : Except String GoValue :=
    .error ("reflect.Value.Convert: value of type " ++ v.typeName ++
      " cannot be converted to type " ++ t.name)
  match v.asInt with
  | some n =>
    match mkNum t n with
    | some w => .ok w
    | none => bad
  | none =>
    match v, t with
    | .vBool b, .tBool => .ok (.vBool b)
    | .vString s, .tString => .ok (.vString s)
    | .vError ty msg, .tError => .ok (.vError ty msg)
    | .vNilPtr e, .tPtr e2 => if e = e2 then .ok (.vNilPtr e) else bad
    | _, _ => bad

/-- Embedding of `reflect.Zero(t)` as seen through `interface\x7b\x7d`:
the zero value of a declared type.  For the error interface type the
zero value is the nil interface, hence `none`. -/
def zeroVal : GoType → Option GoValue
  | .tBool => some (.vBool false)
  | .tInt => some (.vInt 0)
  | .tInt8 => some (.vInt8 0)
  | .tInt64 => some (.vInt64 0)
  | .tString => some (.vString "")
  | .tPtr e => some (.vNilPtr e)
  | .tError => none

/-- Coercion of one caller-supplied slot against the declared type at
its position, shared by the argument loop and the expected loop of
`runFunc` in src/tf.go: a nil marker becomes the zero value of the
declared type, a concrete value is converted to it. -/
def coerceVal (x : Option GoValue) (t : GoType) : Except String (Option GoValue) :=
  match x with
  | none => .ok (zeroVal t)
  | some v => (convert v t).map some

/-- Positional coercion of a whole slice against the declared types,
the `for idx, arg := range` loops of `runFunc`.  When the slice is
longer than the type list, the Go loop indexes past the end of the type
slice and panics with an index-out-of-range runtime error. -/
def coerceList : List (Option GoValue) → List GoType → Except String (List (Option GoValue))
  | [], _ => .ok []
  | x :: xs, t :: ts =>
    match coerceVal x t with
    | .error m => .error m
    | .ok v =>
      match coerceList xs ts with
      | .error m => .error m
      | .ok vs => .ok (v :: vs)
  | _ :: _, [] => .error "runtime error: index out of range"

/-- Embedding of the `returns` slice construction in `runFunc`: a slice
of length equal to the declared return arity is allocated and filled
positionally from the call results; missing positions keep the nil
interface, surplus results would index past the end and panic. -/
def collectReturns (outs : List GoType) (res : List (Option GoValue)) :
    Except String (List (Option GoValue)) :=
  if res.length ≤ outs.length then
    .ok ((List.range outs.length).map fun i => res.getD i none)
  else .error "runtime error: index out of range"

/-- Outcome of one sub-test body: either a runtime panic propagated out
of the closure passed to `t.Run`, or completion with the caller-visible
contents of the (mutated) expected slice and the list of assertion
failures raised in the sub-test (empty means the sub-test passed). -/
inductive RunOutcome : Type
  | panicked : String → RunOutcome
  | completed : List (Option GoValue) → List String → RunOutcome
deriving DecidableEq, Repr

/-- The `handleFunc` type of src/tf.go: a comparison handler receiving
the coerced expected slice and the actual returns, producing the
assertion failures it raises. -/
def HandleFunc : Type :=
  List (Option GoValue) → List (Option GoValue) → List String

/-- The `F` wrapper of src/tf.go.  The callable is modelled
semantically as a function from the coerced argument slots to the
call-result slots (each an interface value). -/
structure F : Type where
  fn : List (Option GoValue) → List (Option GoValue)
  args : List (Option GoValue)
  fnArgsIn : List GoType
  fnArgsOut : List GoType
  fnName : String

/-- Lookup in the process-wide `funcMap`, modelled as an association
list; a missing key reads as absent (Go map lookup yields the zero
value together with `ok = false`). -/
def mapLookup (m : List (String × Nat)) (k : String) : Option Nat :=
  (m.find? fun p => p.1 == k).map (·.2)

/-- Store a key-value pair in the `funcMap` association list, replacing
an existing binding for the key. -/
def mapInsert (m : List (String × Nat)) (k : String) (v : Nat) : List (String × Nat) :=
  match m with
  | [] => [(k, v)]
  | (k2, v2) :: rest =>
    if k2 == k then (k, v) :: rest else (k2, v2) :: mapInsert rest k v

/-- The process-wide mutable state of the package: the `funcMap`
counter registry keyed by display name. -/
structure TFState : Type where
  funcMap : List (String × Nat)
deriving DecidableEq, Repr

/-- Decimal digit character, the rendering of one digit of a
`fmt.Sprintf` verb for integers. -/
def decChar (d : Nat) : Char := Char.ofNat (48 + d)

/-- Little-endian decimal digits of a natural number, computed with a
fuel parameter so that the definition is structurally recursive and
evaluates inside the kernel. -/
def decAux (fuel n : Nat) : List Nat :=
  match fuel with
  | 0 => []
  | fuel + 1 => if n = 0 then [] else n % 10 :: decAux fuel (n / 10)

/-- Little-endian decimal digits of a natural number. -/
def decDigits (n : Nat) : List Nat := decAux n n

/-- Decimal rendering of a natural number, the embedding of the
Sprintf integer verb used to build sub-test names. -/
def natToDec (n : Nat) : String :=
  if n = 0 then "0" else ⟨((decDigits n).reverse.map decChar)⟩

/-- The sub-test name built by `runFunc` through
Sprintf with a name, a hash sign and a counter. -/
def subName (fnName : String) (count : Nat) : String :=
  fnName ++ "#" ++ natToDec count

/-- Embedding of `F.runFunc` in src/tf.go.  It increments the counter
for the display name, opens a sub-test under the generated name, and
inside the sub-test coerces the arguments, invokes the callable,
collects and coerces, in place, the expected values, and runs the
handler.  The returned triple is the updated process state, the
sub-test name, and the outcome of the sub-test body. -/
def runFunc (st : TFState) (f : F) (h : HandleFunc)
    (expected : List (Option GoValue)) : TFState × String × RunOutcome :=
  let count := (mapLookup st.funcMap f.fnName).getD 0 + 1
  let st2 : TFState := ⟨mapInsert st.funcMap f.fnName count⟩
  let nm := subName f.fnName count
  let outcome :=
    match coerceList f.args f.fnArgsIn with
    | .error m => RunOutcome.panicked m
    | .ok argsIn =>
      if argsIn.length ≠ f.fnArgsIn.length then
        RunOutcome.panicked "reflect: Call with wrong number of input arguments"
      else
        match collectReturns f.fnArgsOut (f.fn argsIn) with
        | .error m => RunOutcome.panicked m
        | .ok rets =>
          match coerceList expected f.fnArgsOut with
          | .error m => RunOutcome.panicked m
          | .ok expAfter => RunOutcome.completed expAfter (h expAfter rets)
  (st2, nm, outcome)

/-- The handler of `F.Returns`: `assert.Equal` on the expected and
actual slices, a deep structural equality. -/
def equalHandler : HandleFunc := fun expected actual =>
  if expected = actual then [] else ["Not equal"]

/-- Embedding of `F.Returns`. -/
def F.Returns (st : TFState) (f : F) (expected : List (Option GoValue)) :
    TFState × String × RunOutcome :=
  runFunc st f equalHandler expected

/-- The body of the handler closure of `F.Errors` in src/tf.go,
applied to the captured variadic `args` and the actual returns.  An
empty `args` models the nil slice produced by calling the method with
no expectation arguments.  The failure strings are the diagnostics of
the corresponding testify assertions, in raising order. -/
def errorsCheck (args : List (Option GoValue)) (actual : List (Option GoValue)) :
    List String :=
  if actual.isEmpty then ["function don\x27t return anything"]
  else
    match actual.getLastD none with
    | some (.vError tyName msg) =>
      match args with
      | [] => []
      | firstArg :: _ =>
        match firstArg with
        | some (.vString s) => if s = msg then [] else ["Not equal"]
        | some (.vError ty2 msg2) =>
          (if msg2 = msg then [] else ["Not equal"]) ++
            (if ty2 = tyName then [] else ["IsType"])
        | _ => ["unknown providen expectation"]
    | _ => ["last argument is not an error"]

/-- Embedding of `F.Errors`: runs `runFunc` with the error-inspecting
handler and no expected values. -/
def F.Errors (st : TFState) (f : F) (args : List (Option GoValue)) :
    TFState × String × RunOutcome :=
  runFunc st f (fun _ actual => errorsCheck args actual) []

/-- Embedding of `F.True`: delegates to `Returns(true)`. -/
def F.True (st : TFState) (f : F) : TFState × String × RunOutcome :=
  F.Returns st f [some (.vBool true)]

/-- Embedding of `F.False`: delegates to `Returns(false)`. -/
def F.False (st : TFState) (f : F) : TFState × String × RunOutcome :=
  F.Returns st f [some (.vBool false)]

/-- One assertion call against a wrapped handle, restricted to the
entry points that route through `runFunc`. -/
inductive ACall : Type
  | ret : List (Option GoValue) → ACall
  | errs : List (Option GoValue) → ACall
  | tru : ACall
  | fls : ACall

/-- Dispatch one assertion call. -/
def doCall (st : TFState) (f : F) : ACall → TFState × String × RunOutcome
  | .ret e => F.Returns st f e
  | .errs a => F.Errors st f a
  | .tru => F.True st f
  | .fls => F.False st f

/-- Run a sequence of assertion calls against one wrapped handle,
collecting the generated sub-test names in call order. -/
def runSeq (st : TFState) (f : F) : List ACall → TFState × List String
  | [] => (st, [])
  | c :: cs =>
    let r := doCall st f c
    let rest := runSeq r.1 f cs
    (rest.1, r.2.1 :: rest.2)

/-- A process environment, modelled as an association list from
variable names to values; a name that is absent from the list is an
unset variable. -/
abbrev Env : Type := List (String × String)

/-- Embedding of `os.LookupEnv`: the value of the variable when it is
present, `none` when it is absent. -/
def lookupEnv (env : Env) (name : String) : Option String :=
  (List.find? (fun p => p.1 == name) env).map (·.2)

/-- Embedding of `os.Setenv`: replace the binding of the variable when
present, append it otherwise. -/
def setenv (env : Env) (name value : String) : Env :=
  match env with
  | [] => [(name, value)]
  | (n, v) :: rest =>
    if n == name then (name, value) :: rest else (n, v) :: setenv rest name value

/-- Embedding of `os.Unsetenv`: remove the variable. -/
def unsetenv (env : Env) (name : String) : Env :=
  List.filter (fun p => p.1 != name) env

/-- Embedding of `SetEnv` in src/env.go: look up the prior state of
the variable, set the new value, and return the new environment
together with the restore function, which re-sets the captured prior
value when the variable previously existed and unsets it otherwise. -/
def SetEnv (env : Env) (name value : String) : Env × (Env → Env) :=
  let orig := lookupEnv env name
  (setenv env name value,
    fun e =>
      match orig with
      | some originalValue => setenv e name originalValue
      | none => unsetenv e name)

/-- Outcome of a `Panics` call: the enclosing host test is failed
fatally before any sub-test opens, or a named sub-test runs and
produces its list of assertion failures. -/
inductive PanicsOutcome : Type
  | hostFatal : String → PanicsOutcome
  | subtest : String → List String → PanicsOutcome
deriving DecidableEq, Repr

/-- Debug-formatted string representation of a recovered panic value,
in the style of the fmt package verbs used for arbitrary values. -/
def debugFormat (v : GoValue) : String :=
  match v with
  | .vBool b => if b then "true" else "false"
  | .vInt n => if n < 0 then "-" ++ natToDec (-n).toNat else natToDec n.toNat
  | .vInt8 n => if n < 0 then "-" ++ natToDec (-n).toNat else natToDec n.toNat
  | .vInt64 n => if n < 0 then "-" ++ natToDec (-n).toNat else natToDec n.toNat
  | .vString s => s
  | .vNilPtr _ => "<nil>"
  | .vError _ msg => msg

/-- Modelled from the spec: the source under src/ contains no
implementation of the `Panics` assertion entry point; only the spec
describes it.  Following the spec: at most one expected value is
permitted, otherwise the enclosing host test is failed immediately,
before any sub-test opens and before the naming counter is consumed;
otherwise a counter increment is consumed, the callee runs inside a
recovery scope (its recovered panic value is `recovered`, with `none`
meaning the callee did not panic), a missing panic fails the sub-test;
with one expected value, a textual expectation against a non-textual
recovered value compares the debug-formatted string representation of
the recovered value, and otherwise a direct structural comparison is
used. -/
def F.Panics (st : TFState) (f : F) (recovered : Option GoValue)
    (expected : List (Option GoValue)) : TFState × PanicsOutcome :=
  if expected.length > 1 then
    (st, .hostFatal "too many arguments provided to Panics")
  else
    let count := (mapLookup st.funcMap f.fnName).getD 0 + 1
    let st2 : TFState := ⟨mapInsert st.funcMap f.fnName count⟩
    let nm := subName f.fnName count
    let failures :=
      match recovered with
      | none => ["did not panic"]
      | some r =>
        match expected with
        | [] => []
        | e :: _ =>
          match e, r with
          | some (.vString s), .vString s2 =>
            if s2 = s then [] else ["Not equal"]
          | some (.vString s), r2 =>
            if debugFormat r2 = s then [] else ["Not equal"]
          | e2, r2 => if e2 = some r2 then [] else ["Not equal"]
    (st2, .subtest nm failures)

/-- Wrapped handle for a callee `func() bool` that returns false, as in
the `Switch` example of src/tf.go. -/
def switchF : F :=
  { fn := fun _ => [some (.vBool false)]
    args := []
    fnArgsIn := []
    fnArgsOut := [.tBool]
    fnName := "Switch" }

/-- Wrapped handle for the `NewNil` test callee: a function from a
pointer parameter to a string, invoked with a nil argument. -/
def newNilF : F :=
  { fn := fun _ => [some (.vString "default")]
    args := [none]
    fnArgsIn := [.tPtr "Optional"]
    fnArgsOut := [.tString]
    fnName := "NewNil" }

/-- Wrapped handle for the casting test callee of the test suite: a
function from two int8 parameters to an int64 and a struct pointer,
invoked with the arguments 1 and 2. -/
def castF : F :=
  { fn := fun _ => [some (.vInt64 3), some (.vNilPtr "MyStruct")]
    args := [some (.vInt8 1), some (.vInt8 2)]
    fnArgsIn := [.tInt8, .tInt8]
    fnArgsOut := [.tInt64, .tPtr "MyStruct"]
    fnName := "Run" }

/-- Wrapped handle for a callee declared to return an error that
returns a nil error: the call result is the nil interface. -/
def nilErrF : F :=
  { fn := fun _ => [none]
    args := []
    fnArgsIn := []
    fnArgsOut := [.tError]
    fnName := "NewError" }

/-- Wrapped handle for a callee returning a populated error with the
message of the basic error test. -/
def someErrF : F :=
  { fn := fun _ => [some (.vError "errorString" "some error")]
    args := []
    fnArgsIn := []
    fnArgsOut := [.tError]
    fnName := "NewError" }

/-- Wrapped handle invoked with a string argument against a declared
int parameter: the argument is not convertible to the declared type. -/
def badConvF : F :=
  { fn := fun _ => []
    args := [some (.vString "ten")]
    fnArgsIn := [.tInt]
    fnArgsOut := []
    fnName := "Consume" }

/-- Wrapped handle for a callee used with the Panics model. -/
def panicF : F :=
  { fn := fun _ => []
    args := []
    fnArgsIn := []
    fnArgsOut := []
    fnName := "Boom" }

/-! ### Helper lemmas -/

theorem lookupEnv_setenv_self (env : Env) (name value : String) :
    lookupEnv (setenv env name value) name = some value := by
  induction env with
  | nil => simp [setenv, lookupEnv]
  | cons p rest ih =>
    obtain ⟨n, v⟩ := p
    by_cases h : n == name
    · simp [setenv, h, lookupEnv]
    · simp only [setenv, h, if_false, Bool.false_eq_true]
      simpa [lookupEnv, List.find?, h] using ih

theorem lookupEnv_unsetenv_self (env : Env) (name : String) :
    lookupEnv (unsetenv env name) name = none := by
  induction env with
  | nil => simp [unsetenv, lookupEnv]
  | cons p rest ih =>
    obtain ⟨n, v⟩ := p
    by_cases h : n == name
    · simpa [unsetenv, List.filter_cons, bne, h] using ih
    · simp only [unsetenv, List.filter_cons, bne, h, Bool.not_false, if_true]
      rw [show lookupEnv ((n, v) :: List.filter (fun p => !p.1 == name) rest) name =
        lookupEnv (List.filter (fun p => !p.1 == name) rest) name by
          simp [lookupEnv, List.find?, h]]
      simpa [unsetenv, bne] using ih

/-! ### Claims -/

/-- Claim C8: for every environment variable name and value and every
prior environment state, `SetEnv name value` followed by a call of the
returned restore function leaves the presence and value of the
variable identical to its state before `SetEnv` was called: restored
to its prior value when it previously existed, removed when it was
previously absent. -/
theorem setenv_restore_roundtrip (env : Env) (name value : String) :
    lookupEnv ((SetEnv env name value).2 ((SetEnv env name value).1)) name =
      lookupEnv env name := by
  unfold SetEnv
  cases h : lookupEnv env name with
  | none => simp only [h, lookupEnv_unsetenv_self]
  | some ov => simp only [h, lookupEnv_setenv_self]

/-- Claim C7: `True` is exactly `Returns(true)` and `False` is exactly
`Returns(false)`, with identical naming, coercion and outcome; against
a callee with one boolean return that produces the opposite boolean,
the sub-test completes with the equality-assertion failure. -/
theorem true_false_equiv_returns :
    (∀ (st : TFState) (f : F), F.True st f = F.Returns st f [some (.vBool true)]) ∧
    (∀ (st : TFState) (f : F), F.False st f = F.Returns st f [some (.vBool false)]) ∧
    (∀ (st : TFState) (f : F) (argsIn : List (Option GoValue)),
      coerceList f.args f.fnArgsIn = .ok argsIn →
      argsIn.length = f.fnArgsIn.length →
      f.fnArgsOut = [.tBool] →
      f.fn argsIn = [some (.vBool false)] →
      (F.True st f).2.2 = .completed [some (.vBool true)] ["Not equal"]) ∧
    (∀ (st : TFState) (f : F) (argsIn : List (Option GoValue)),
      coerceList f.args f.fnArgsIn = .ok argsIn →
      argsIn.length = f.fnArgsIn.length →
      f.fnArgsOut = [.tBool] →
      f.fn argsIn = [some (.vBool true)] →
      (F.False st f).2.2 = .completed [some (.vBool false)] ["Not equal"]) := by
  refine ⟨fun st f => rfl, fun st f => rfl, ?_, ?_⟩
  · intro st f argsIn h1 h2 h3 h4
    simp [F.True, F.Returns, runFunc, h1, h2, h3, h4, collectReturns,
      coerceList, coerceVal, convert, GoValue.asInt, equalHandler, List.range,
      List.range.loop, Except.map]
  · intro st f argsIn h1 h2 h3 h4
    simp [F.False, F.Returns, runFunc, h1, h2, h3, h4, collectReturns,
      coerceList, coerceVal, convert, GoValue.asInt, equalHandler, List.range,
      List.range.loop, Except.map]

/-- Witness for C7 at the concrete handle `switchF`, whose callee
returns false while `True` expects true. -/
theorem true_false_equiv_returns_witness :
    (F.True ⟨[]⟩ switchF).2.2 = .completed [some (.vBool true)] ["Not equal"] :=
  true_false_equiv_returns.2.2.1 ⟨[]⟩ switchF [] (by rfl) (by rfl) (by rfl) (by rfl)

/-- Claim C3: with no expectation, `Errors` passes exactly when the
last returned value is a non-nil error, regardless of message; with a
string expectation it passes exactly when additionally the message
matches; with an error-shaped expectation it passes exactly when both
the message and the concrete error type match; against a callee
returning nothing it fails with the does-not-return-anything
diagnostic. -/
theorem errors_assertion_semantics :
    (∀ (st : TFState) (f : F) (args : List (Option GoValue)),
      F.Errors st f args = runFunc st f (fun _ actual => errorsCheck args actual) []) ∧
    (∀ actual : List (Option GoValue),
      (errorsCheck [] actual = [] ↔
        actual ≠ [] ∧ ∃ ty msg, actual.getLastD none = some (.vError ty msg))) ∧
    (∀ (s : String) (actual : List (Option GoValue)),
      (errorsCheck [some (.vString s)] actual = [] ↔
        actual ≠ [] ∧ ∃ ty msg, actual.getLastD none = some (.vError ty msg) ∧ msg = s)) ∧
    (∀ (ty2 msg2 : String) (actual : List (Option GoValue)),
      (errorsCheck [some (.vError ty2 msg2)] actual = [] ↔
        actual ≠ [] ∧ ∃ ty msg,
          actual.getLastD none = some (.vError ty msg) ∧ msg = msg2 ∧ ty = ty2)) ∧
    (∀ args : List (Option GoValue),
      errorsCheck args [] = ["function don\x27t return anything"]) := by
  refine ⟨fun st f args => rfl, ?_, ?_, ?_, fun args => rfl⟩
  · intro actual
    cases actual with
    | nil => simp [errorsCheck]
    | cons a l =>
      simp only [errorsCheck, List.isEmpty_cons, Bool.false_eq_true, if_false]
      split
      next tyName msg heq =>
        constructor
        · intro _
          exact ⟨by simp, tyName, msg, heq⟩
        · intro _
          rfl
      next h2 =>
        constructor
        · intro hc; exact absurd hc (by simp)
        · rintro ⟨hne, ty, msg, hlast⟩
          exact absurd hlast (by intro hq; exact h2 ty msg hq)
  · intro s actual
    cases actual with
    | nil => simp [errorsCheck]
    | cons a l =>
      simp only [errorsCheck, List.isEmpty_cons, Bool.false_eq_true, if_false]
      split
      next tyName msg heq =>
        by_cases hs : s = msg
        · simp only [hs, if_pos rfl, List.cons_ne_nil, ne_eq, not_false_iff,
            true_and, heq]
          constructor
          · intro _; exact ⟨tyName, msg, rfl, rfl⟩
          · intro _; rfl
        · rw [if_neg hs]
          constructor
          · intro hc; exact absurd hc (by simp)
          · rintro ⟨hne, ty, msg2, hlast, hmsg⟩
            rw [heq] at hlast
            cases hlast
            exact absurd hmsg.symm hs
      next h2 =>
        constructor
        · intro hc; exact absurd hc (by simp)
        · rintro ⟨hne, ty, msg, hlast, hmsg⟩
          exact absurd hlast (by intro hq; exact h2 ty msg hq)
  · intro ty2 msg2 actual
    cases actual with
    | nil => simp [errorsCheck]
    | cons a l =>
      simp only [errorsCheck, List.isEmpty_cons, Bool.false_eq_true, if_false]
      split
      next tyName msg heq =>
        simp only [List.append_eq_nil, heq, List.cons_ne_nil, ne_eq,
          not_false_iff, true_and]
        constructor
        · rintro ⟨hmsg, hty⟩
          refine ⟨tyName, msg, rfl, ?_, ?_⟩
          · by_contra hcontra
            rw [if_neg (fun hx => hcontra hx.symm)] at hmsg
            cases hmsg
          · by_contra hcontra
            rw [if_neg (fun hx => hcontra hx.symm)] at hty
            cases hty
        · rintro ⟨ty, msg3, hlast, hmsg, hty⟩
          cases hlast
          exact ⟨by rw [if_pos hmsg.symm], by rw [if_pos hty.symm]⟩
      next h2 =>
        constructor
        · intro hc
          exact absurd hc (by simp)
        · rintro ⟨hne, ty, msg, hlast, hmsg, hty⟩
          exact absurd hlast (by intro hq; exact h2 ty msg hq)

/-- Claim C10: a callee whose last declared return type is the error
interface but which returns a nil error produces the nil interface as
its last call result, so `Errors()` fails the sub-test with the
last-argument-is-not-an-error diagnostic, and with no other
diagnostic. -/
theorem errors_nil_error_diagnostic (st : TFState) (f : F)
    (argsIn rets : List (Option GoValue))
    (h1 : coerceList f.args f.fnArgsIn = .ok argsIn)
    (h2 : argsIn.length = f.fnArgsIn.length)
    (h3 : collectReturns f.fnArgsOut (f.fn argsIn) = .ok rets)
    (h4 : rets ≠ [])
    (h5 : rets.getLastD none = none) :
    (F.Errors st f []).2.2 = .completed [] ["last argument is not an error"] := by
  simp only [F.Errors, runFunc, h1, h2, ne_eq, not_true_eq_false, if_false, h3,
    coerceList]
  simp only [errorsCheck, h5]
  rw [if_neg (by simp [List.isEmpty_iff, h4])]

/-- Witness for C10 at the concrete handle `nilErrF`, whose callee
returns a nil error. -/
theorem errors_nil_error_diagnostic_witness :
    (F.Errors ⟨[]⟩ nilErrF []).2.2 = .completed [] ["last argument is not an error"] :=
  errors_nil_error_diagnostic ⟨[]⟩ nilErrF [] [none] (by rfl) (by rfl) (by rfl)
    (by simp) (by rfl)

/-- Counterexample to claim C4: a call to `Errors` with two expected
values, the first being the matching message string, passes with no
failure at all, instead of failing with the unrecognized-expectation
diagnostic. -/
theorem errors_extra_args_ignored_cex :
    (F.Errors ⟨[]⟩ someErrF
      [some (.vString "some error"), some (.vString "unrelated")]).2.2 =
      .completed [] [] := by
  rfl

/-- Claim C4 as amended: `Errors` examines only the first expected
value and silently ignores any further ones; a first expected value
that is neither a string nor an error-shaped value fails the sub-test
with the unrecognized-expectation diagnostic. -/
theorem errors_expectation_shapes :
    (∀ (a : Option GoValue) (rest rest2 actual : List (Option GoValue)),
      errorsCheck (a :: rest) actual = errorsCheck (a :: rest2) actual) ∧
    (∀ (a : Option GoValue) (rest actual : List (Option GoValue)) (ty msg : String),
      actual ≠ [] → actual.getLastD none = some (.vError ty msg) →
      (∀ s, a ≠ some (.vString s)) → (∀ t2 m2, a ≠ some (.vError t2 m2)) →
      errorsCheck (a :: rest) actual = ["unknown providen expectation"]) := by
  constructor
  · intro a rest rest2 actual
    cases actual with
    | nil => rfl
    | cons b l =>
      simp only [errorsCheck, List.isEmpty_cons, Bool.false_eq_true, if_false]
  · intro a rest actual ty msg hne hlast hnstr hnerr
    cases actual with
    | nil => exact absurd rfl hne
    | cons b l =>
      simp only [errorsCheck, List.isEmpty_cons, Bool.false_eq_true, if_false, hlast]

/-- Witness for the amended C4: a numeric first expected value yields
the unrecognized-expectation diagnostic, and the value after the first
does not affect the outcome. -/
theorem errors_expectation_shapes_witness :
    errorsCheck [some (.vInt 5)] [some (.vError "errorString" "boom")] =
      ["unknown providen expectation"] ∧
    errorsCheck [some (.vString "x"), some (.vInt 1)]
        [some (.vError "errorString" "boom")] =
      errorsCheck [some (.vString "x"), none] [some (.vError "errorString" "boom")] :=
  ⟨errors_expectation_shapes.2 (some (.vInt 5)) [] [some (.vError "errorString" "boom")]
      "errorString" "boom" (by simp) (by rfl) (fun s => by simp) (fun t2 m2 => by simp),
    errors_expectation_shapes.1 (some (.vString "x")) [some (.vInt 1)] [none]
      [some (.vError "errorString" "boom")]⟩

/-- Counterexample to claim C5: invoking a wrapped function whose
argument is not convertible to the declared parameter type does not
produce a marked test failure; the sub-test body aborts with a
propagated runtime panic from the reflect conversion. -/
theorem returns_inconvertible_panics_cex :
    (F.Returns ⟨[]⟩ badConvF []).2.2 =
      .panicked "reflect.Value.Convert: value of type string cannot be converted to type int" := by
  rfl

/-- Claim C5 as amended: a value that is not convertible to the
declared type at its position makes the corresponding coercion loop
panic; the panic carries the descriptive reflect message and
propagates out of the sub-test body, so the callee and the handler
never run with an uncoerced value, but the library itself does not
mark the host test as failed. -/
theorem coercion_failure_panics :
    (∀ (st : TFState) (f : F) (h : HandleFunc)
      (expected : List (Option GoValue)) (m : String),
      coerceList f.args f.fnArgsIn = .error m →
      (runFunc st f h expected).2.2 = .panicked m) ∧
    (∀ (st : TFState) (f : F) (h : HandleFunc)
      (expected argsIn rets : List (Option GoValue)) (m : String),
      coerceList f.args f.fnArgsIn = .ok argsIn →
      argsIn.length = f.fnArgsIn.length →
      collectReturns f.fnArgsOut (f.fn argsIn) = .ok rets →
      coerceList expected f.fnArgsOut = .error m →
      (runFunc st f h expected).2.2 = .panicked m) := by
  constructor
  · intro st f h expected m hc
    simp only [runFunc, hc]
  · intro st f h expected argsIn rets m h1 h2 h3 h4
    simp only [runFunc, h1, h2, ne_eq, not_true_eq_false, if_false, h3, h4]

/-- Witness for the amended C5 at the concrete handle `badConvF`. -/
theorem coercion_failure_panics_witness :
    (runFunc ⟨[]⟩ badConvF equalHandler []).2.2 =
      .panicked "reflect.Value.Convert: value of type string cannot be converted to type int" :=
  coercion_failure_panics.1 ⟨[]⟩ badConvF equalHandler []
    "reflect.Value.Convert: value of type string cannot be converted to type int" (by rfl)

theorem coerceList_length (xs : List (Option GoValue)) (ts : List GoType)
    (ys : List (Option GoValue)) (h : coerceList xs ts = .ok ys) :
    ys.length = xs.length ∧ xs.length ≤ ts.length := by
  induction xs generalizing ts ys with
  | nil =>
    simp only [coerceList] at h
    cases h
    simp
  | cons x xs ih =>
    cases ts with
    | nil => simp only [coerceList] at h; cases h
    | cons t ts =>
      simp only [coerceList] at h
      cases hv : coerceVal x t with
      | error m => rw [hv] at h; cases h
      | ok v =>
        rw [hv] at h
        cases hr : coerceList xs ts with
        | error m => rw [hr] at h; cases h
        | ok vs =>
          rw [hr] at h
          cases h
          obtain ⟨ih1, ih2⟩ := ih ts vs hr
          exact ⟨by simp [ih1], by simpa using ih2⟩

theorem coerceList_getD (xs : List (Option GoValue)) (ts : List GoType)
    (ys : List (Option GoValue)) (h : coerceList xs ts = .ok ys)
    (i : Nat) (hi : i < xs.length) :
    coerceVal (xs.getD i none) (ts.getD i .tBool) = .ok (ys.getD i none) := by
  induction xs generalizing ts ys i with
  | nil => simp at hi
  | cons x xs ih =>
    cases ts with
    | nil => simp only [coerceList] at h; cases h
    | cons t ts =>
      simp only [coerceList] at h
      cases hv : coerceVal x t with
      | error m => rw [hv] at h; cases h
      | ok v =>
        rw [hv] at h
        cases hr : coerceList xs ts with
        | error m => rw [hr] at h; cases h
        | ok vs =>
          rw [hr] at h
          cases h
          cases i with
          | zero => simpa using hv
          | succ j =>
            simp only [List.getD_cons_succ]
            exact ih ts vs hr j (by simpa using hi)

theorem coerceList_nil_pos (xs : List (Option GoValue)) (ts : List GoType)
    (ys : List (Option GoValue)) (h : coerceList xs ts = .ok ys) (i : Nat)
    (hi : i < xs.length) (hnil : xs.getD i none = none) :
    ys.getD i none = zeroVal (ts.getD i .tBool) := by
  have hc := coerceList_getD xs ts ys h i hi
  rw [hnil] at hc
  simp only [coerceVal] at hc
  injection hc with h5
  exact h5.symm

theorem coerceList_some_pos (xs : List (Option GoValue)) (ts : List GoType)
    (ys : List (Option GoValue)) (h : coerceList xs ts = .ok ys) (i : Nat)
    (hi : i < xs.length) (v : GoValue) (hsome : xs.getD i none = some v) :
    ∃ w, convert v (ts.getD i .tBool) = .ok w ∧ ys.getD i none = some w := by
  have hc := coerceList_getD xs ts ys h i hi
  rw [hsome] at hc
  simp only [coerceVal] at hc
  cases hcv : convert v (ts.getD i .tBool) with
  | error m => rw [hcv] at hc; simp [Except.map] at hc
  | ok w =>
    rw [hcv] at hc
    simp only [Except.map] at hc
    injection hc with h5
    exact ⟨w, rfl, h5.symm⟩

/-- Claim C2: inside `runFunc` a nil argument slot is coerced to the
zero value of the declared parameter type at its position and a
concrete argument is converted to that type before the callee is
invoked on the coerced slots; likewise a nil expected slot becomes the
zero value of the declared return type at its position and a concrete
expected value is converted to that return type, before the handler
compares them with the actual returns. -/
theorem runFunc_coerces_args_and_expected (st : TFState) (f : F) (h : HandleFunc)
    (expected argsIn rets expAfter : List (Option GoValue))
    (h1 : coerceList f.args f.fnArgsIn = .ok argsIn)
    (h2 : argsIn.length = f.fnArgsIn.length)
    (h3 : collectReturns f.fnArgsOut (f.fn argsIn) = .ok rets)
    (h4 : coerceList expected f.fnArgsOut = .ok expAfter) :
    runFunc st f h expected =
      (⟨mapInsert st.funcMap f.fnName ((mapLookup st.funcMap f.fnName).getD 0 + 1)⟩,
        subName f.fnName ((mapLookup st.funcMap f.fnName).getD 0 + 1),
        .completed expAfter (h expAfter rets)) ∧
    (∀ i, i < f.args.length → f.args.getD i none = none →
      argsIn.getD i none = zeroVal (f.fnArgsIn.getD i .tBool)) ∧
    (∀ i v, i < f.args.length → f.args.getD i none = some v →
      ∃ w, convert v (f.fnArgsIn.getD i .tBool) = .ok w ∧ argsIn.getD i none = some w) ∧
    (∀ i, i < expected.length → expected.getD i none = none →
      expAfter.getD i none = zeroVal (f.fnArgsOut.getD i .tBool)) ∧
    (∀ i v, i < expected.length → expected.getD i none = some v →
      ∃ w, convert v (f.fnArgsOut.getD i .tBool) = .ok w ∧ expAfter.getD i none = some w) := by
  refine ⟨?_, ?_, ?_, ?_, ?_⟩
  · simp only [runFunc, h1, h2, ne_eq, not_true_eq_false, if_false, h3, h4]
  · intro i hi hnil
    exact coerceList_nil_pos f.args f.fnArgsIn argsIn h1 i hi hnil
  · intro i v hi hsome
    exact coerceList_some_pos f.args f.fnArgsIn argsIn h1 i hi v hsome
  · intro i hi hnil
    exact coerceList_nil_pos expected f.fnArgsOut expAfter h4 i hi hnil
  · intro i v hi hsome
    exact coerceList_some_pos expected f.fnArgsOut expAfter h4 i hi v hsome

/-- Witness for C2 at the concrete handle `newNilF`: the nil argument
is pinned to the zero value of the declared pointer type and the whole
call runs to a passing comparison. -/
theorem runFunc_coerces_args_and_expected_witness :
    runFunc ⟨[]⟩ newNilF equalHandler [some (.vString "default")] =
      (⟨[("NewNil", 1)]⟩, "NewNil#1",
        .completed [some (.vString "default")] []) :=
  (runFunc_coerces_args_and_expected ⟨[]⟩ newNilF equalHandler
      [some (.vString "default")] [some (.vNilPtr "Optional")]
      [some (.vString "default")] [some (.vString "default")]
      (by rfl) (by rfl) (by rfl) (by rfl)).1.trans (by rfl)

/-- Claim C9: when `runFunc` completes, the caller-visible expected
slice has been rewritten in place into its coerced form: every nil
element has been replaced by the zero value of the declared return
type at its position and every concrete element by its conversion to
that type. -/
theorem runFunc_rewrites_expected_slice (st : TFState) (f : F) (h : HandleFunc)
    (expected : List (Option GoValue)) (st2 : TFState) (nm : String)
    (expAfter : List (Option GoValue)) (fails : List String)
    (hrun : runFunc st f h expected = (st2, nm, .completed expAfter fails)) :
    coerceList expected f.fnArgsOut = .ok expAfter ∧
    expAfter.length = expected.length ∧
    (∀ i, i < expected.length → expected.getD i none = none →
      expAfter.getD i none = zeroVal (f.fnArgsOut.getD i .tBool)) ∧
    (∀ i v, i < expected.length → expected.getD i none = some v →
      ∃ w, convert v (f.fnArgsOut.getD i .tBool) = .ok w ∧ expAfter.getD i none = some w) := by
  have hco : coerceList expected f.fnArgsOut = .ok expAfter := by
    simp only [runFunc] at hrun
    split at hrun
    · simp at hrun
    · split at hrun
      · simp at hrun
      · split at hrun
        · simp at hrun
        · split at hrun
          · simp at hrun
          next ea heq3 =>
            simp only [Prod.mk.injEq, RunOutcome.completed.injEq] at hrun
            rw [heq3, hrun.2.2.1]
  refine ⟨hco, (coerceList_length expected f.fnArgsOut expAfter hco).1, ?_, ?_⟩
  · intro i hi hnil
    exact coerceList_nil_pos expected f.fnArgsOut expAfter hco i hi hnil
  · intro i v hi hsome
    exact coerceList_some_pos expected f.fnArgsOut expAfter hco i hi v hsome

/-- Witness for C9 at the concrete handle `castF` with the expected
values of the casting test: the int literal is converted to int64 and
the nil marker becomes the typed nil pointer. -/
theorem runFunc_rewrites_expected_slice_witness :
    coerceList [some (.vInt 3), none] castF.fnArgsOut =
      .ok [some (.vInt64 3), some (.vNilPtr "MyStruct")] :=
  (runFunc_rewrites_expected_slice ⟨[]⟩ castF equalHandler
      [some (.vInt 3), none] ⟨[("Run", 1)]⟩ "Run#1"
      [some (.vInt64 3), some (.vNilPtr "MyStruct")] [] (by rfl)).1

/-- Claim C6, modelled from the spec because the source under src/
contains no `Panics` implementation: more than one expected value
fails the host test immediately, before any sub-test opens and without
consuming a counter; `Panics()` against a callee that does not panic
fails the sub-test with the did-not-panic diagnostic; a textual
expectation against a non-textual recovered value is compared against
the debug-formatted string representation of the recovered value. -/
theorem panics_model_semantics :
    (∀ (st : TFState) (f : F) (recovered : Option GoValue)
      (expected : List (Option GoValue)), expected.length > 1 →
      F.Panics st f recovered expected =
        (st, .hostFatal "too many arguments provided to Panics")) ∧
    (∀ (st : TFState) (f : F),
      F.Panics st f none [] =
        (⟨mapInsert st.funcMap f.fnName ((mapLookup st.funcMap f.fnName).getD 0 + 1)⟩,
          .subtest (subName f.fnName ((mapLookup st.funcMap f.fnName).getD 0 + 1))
            ["did not panic"])) ∧
    (∀ (st : TFState) (f : F) (s : String) (v : GoValue),
      (∀ s2, v ≠ .vString s2) →
      (F.Panics st f (some v) [some (.vString s)]).2 =
        .subtest (subName f.fnName ((mapLookup st.funcMap f.fnName).getD 0 + 1))
          (if debugFormat v = s then [] else ["Not equal"])) := by
  refine ⟨?_, ?_, ?_⟩
  · intro st f recovered expected hlen
    simp only [F.Panics, if_pos hlen]
  · intro st f
    rfl
  · intro st f s v hv
    simp only [F.Panics, List.length_cons, List.length_nil]
    rw [if_neg (by omega)]

/-- Witness for C6 at the concrete handle `panicF`: two expectations
abort the host test with no sub-test, and a textual expectation
matching the debug format of a recovered numeric panic value passes. -/
theorem panics_model_semantics_witness :
    F.Panics ⟨[]⟩ panicF (some (.vInt 42)) [some (.vString "42"), some (.vString "x")] =
      (⟨[]⟩, .hostFatal "too many arguments provided to Panics") ∧
    (F.Panics ⟨[]⟩ panicF (some (.vInt 42)) [some (.vString "42")]).2 =
      .subtest "Boom#1" [] := by
  constructor
  · exact panics_model_semantics.1 ⟨[]⟩ panicF (some (.vInt 42))
      [some (.vString "42"), some (.vString "x")] (by decide)
  · exact (panics_model_semantics.2.2 ⟨[]⟩ panicF "42" (.vInt 42)
      (fun s2 => by simp)).trans (by rfl)

theorem decAux_eq_digits (fuel : Nat) : ∀ n : Nat, n ≤ fuel → decAux fuel n = Nat.digits 10 n := by
  induction fuel with
  | zero =>
    intro n hn
    interval_cases n
    simp [decAux]
  | succ fuel ih =>
    intro n hn
    by_cases h0 : n = 0
    · subst h0; simp [decAux]
    · have hpos : 0 < n := Nat.pos_of_ne_zero h0
      rw [show decAux (fuel + 1) n = n % 10 :: decAux fuel (n / 10) by
        simp [decAux, h0]]
      rw [Nat.digits_def' (by norm_num : (1 : Nat) < 10) hpos]
      have hdiv : n / 10 < n := Nat.div_lt_self hpos (by norm_num)
      rw [ih (n / 10) (by omega)]

theorem decDigits_eq_digits (n : Nat) : decDigits n = Nat.digits 10 n :=
  decAux_eq_digits n n le_rfl

theorem decChar_toNat (d : Nat) (hd : d < 10) : (decChar d).toNat = 48 + d := by
  interval_cases d <;> rfl

theorem map_decChar_inj (l1 l2 : List Nat) (h1 : ∀ d ∈ l1, d < 10)
    (h2 : ∀ d ∈ l2, d < 10) (h : l1.map decChar = l2.map decChar) : l1 = l2 := by
  induction l1 generalizing l2 with
  | nil =>
    cases l2 with
    | nil => rfl
    | cons d l => simp at h
  | cons d1 t1 ih =>
    cases l2 with
    | nil => simp at h
    | cons d2 t2 =>
      simp only [List.map_cons, List.cons.injEq] at h
      have hhd : d1 = d2 := by
        have := congrArg Char.toNat h.1
        rw [decChar_toNat d1 (h1 d1 (by simp)), decChar_toNat d2 (h2 d2 (by simp))] at this
        omega
      have htl : t1 = t2 := ih t2 (fun d hd => h1 d (List.mem_cons_of_mem _ hd))
        (fun d hd => h2 d (List.mem_cons_of_mem _ hd)) h.2
      rw [hhd, htl]

theorem str_ext (a b : String) (h : a.data = b.data) : a = b := by
  cases a
  cases b
  simp only at h
  rw [h]

theorem str_data_append (a b : String) : (a ++ b).data = a.data ++ b.data := by
  cases a
  cases b
  rfl

theorem digits_bounded (n : Nat) : ∀ d ∈ (Nat.digits 10 n).reverse, d < 10 := by
  intro d hd
  exact Nat.digits_lt_base (by norm_num) (List.mem_reverse.mp hd)

theorem natToDec_inj (m n : Nat) (h : natToDec m = natToDec n) : m = n := by
  by_cases hm : m = 0 <;> by_cases hn : n = 0
  · rw [hm, hn]
  · exfalso
    rw [natToDec, natToDec, if_pos hm, if_neg hn] at h
    have hdata := congrArg String.data h
    have h0 : ([0] : List Nat).map decChar = ((Nat.digits 10 n).reverse).map decChar := by
      rw [← decDigits_eq_digits]
      exact hdata
    have := map_decChar_inj [0] ((Nat.digits 10 n).reverse) (by simp)
      (digits_bounded n) h0
    have hd : Nat.digits 10 n = [0] := by
      have := congrArg List.reverse this
      simpa using this.symm
    have := Nat.ofDigits_digits 10 n
    rw [hd] at this
    simp [Nat.ofDigits] at this
    exact hn this.symm
  · exfalso
    rw [natToDec, natToDec, if_neg hm, if_pos hn] at h
    have hdata := congrArg String.data h
    have h0 : ((Nat.digits 10 m).reverse).map decChar = ([0] : List Nat).map decChar := by
      rw [← decDigits_eq_digits]
      exact hdata
    have := map_decChar_inj ((Nat.digits 10 m).reverse) [0] (digits_bounded m)
      (by simp) h0
    have hd : Nat.digits 10 m = [0] := by
      have := congrArg List.reverse this
      simpa using this
    have := Nat.ofDigits_digits 10 m
    rw [hd] at this
    simp [Nat.ofDigits] at this
    exact hm this.symm
  · rw [natToDec, natToDec, if_neg hm, if_neg hn] at h
    have hdata := congrArg String.data h
    simp only [decDigits_eq_digits] at hdata
    have := map_decChar_inj ((Nat.digits 10 m).reverse) ((Nat.digits 10 n).reverse)
      (digits_bounded m) (digits_bounded n) hdata
    have hdig : Nat.digits 10 m = Nat.digits 10 n := by
      have := congrArg List.reverse this
      simpa using this
    have h1 := Nat.ofDigits_digits 10 m
    have h2 := Nat.ofDigits_digits 10 n
    rw [hdig] at h1
    rw [← h1, h2]

theorem subName_inj_count (fnName : String) (c1 c2 : Nat)
    (h : subName fnName c1 = subName fnName c2) : c1 = c2 := by
  have hdata := congrArg String.data h
  simp only [subName, str_data_append, List.append_assoc] at hdata
  have h2 : (natToDec c1).data = (natToDec c2).data :=
    List.append_cancel_left (List.append_cancel_left hdata)
  exact natToDec_inj c1 c2 (str_ext _ _ h2)

theorem mapLookup_mapInsert_self (m : List (String × Nat)) (k : String) (v : Nat) :
    mapLookup (mapInsert m k v) k = some v := by
  induction m with
  | nil => simp [mapLookup, mapInsert, List.find?]
  | cons p rest ih =>
    obtain ⟨k2, v2⟩ := p
    by_cases h : k2 == k
    · simp [mapInsert, h, mapLookup, List.find?]
    · simp only [mapInsert, h, Bool.false_eq_true, if_false]
      rw [show mapLookup ((k2, v2) :: mapInsert rest k v) k =
        mapLookup (mapInsert rest k v) k by simp [mapLookup, List.find?, h]]
      exact ih

theorem doCall_components (st : TFState) (f : F) (c : ACall) :
    (doCall st f c).1 =
      TFState.mk (mapInsert st.funcMap f.fnName ((mapLookup st.funcMap f.fnName).getD 0 + 1)) ∧
    (doCall st f c).2.1 = subName f.fnName ((mapLookup st.funcMap f.fnName).getD 0 + 1) := by
  cases c <;> exact ⟨rfl, rfl⟩

theorem runSeq_names (f : F) (calls : List ACall) : ∀ (st : TFState) (k : Nat),
    (mapLookup st.funcMap f.fnName).getD 0 = k →
    (runSeq st f calls).2 =
      (List.range calls.length).map (fun i => subName f.fnName (k + i + 1)) := by
  induction calls with
  | nil => intro st k hk; rfl
  | cons c cs ih =>
    intro st k hk
    have hdc := doCall_components st f c
    have hk2 : (mapLookup (doCall st f c).1.funcMap f.fnName).getD 0 = k + 1 := by
      rw [hdc.1, hk]
      simp [mapLookup_mapInsert_self]
    have hrest := ih (doCall st f c).1 (k + 1) hk2
    show ((doCall st f c).2.1 :: (runSeq (doCall st f c).1 f cs).2) = _
    simp only [List.length_cons]
    rw [hdc.2, hk, hrest, List.range_succ_eq_map, List.map_cons, List.map_map]
    congr 1
    apply List.map_congr_left
    intro i _
    show subName f.fnName (k + 1 + i + 1) = subName f.fnName (k + (i + 1) + 1)
    congr 1
    omega

/-- Claim C1: starting from a process state in which the display name
of a wrapped handle has no counter entry, a sequence of N assertion
calls (Returns, Errors, True or False) against the handle generates
the sub-test names name#1 through name#N in call order, and these
names are pairwise distinct. -/
theorem subtest_names_sequential (st : TFState) (f : F) (calls : List ACall)
    (hfresh : mapLookup st.funcMap f.fnName = none) :
    (runSeq st f calls).2 =
      (List.range calls.length).map (fun i => subName f.fnName (i + 1)) ∧
    (runSeq st f calls).2.Nodup := by
  have h0 : (mapLookup st.funcMap f.fnName).getD 0 = 0 := by rw [hfresh]; rfl
  have h1 := runSeq_names f calls st 0 h0
  have h2 : (runSeq st f calls).2 =
      (List.range calls.length).map (fun i => subName f.fnName (i + 1)) := by
    rw [h1]
    apply List.map_congr_left
    intro i _
    congr 1
    omega
  refine ⟨h2, ?_⟩
  rw [h2]
  refine List.Nodup.map ?_ (List.nodup_range _)
  intro a b hab
  have := subName_inj_count f.fnName (a + 1) (b + 1) hab
  omega

/-- Witness for C1: three calls against the `switchF` handle in a
fresh process state generate the three numbered sub-test names in call
order, with no duplicates. -/
theorem subtest_names_sequential_witness :
    (runSeq ⟨[]⟩ switchF [.tru, .fls, .ret [some (.vBool false)]]).2 =
      ["Switch#1", "Switch#2", "Switch#3"] ∧
    (runSeq ⟨[]⟩ switchF [.tru, .fls, .ret [some (.vBool false)]]).2.Nodup := by
  have h := subtest_names_sequential ⟨[]⟩ switchF
    [.tru, .fls, .ret [some (.vBool false)]] (by rfl)
  exact ⟨h.1.trans (by rfl), h.2⟩
